import Mathlib

/-
Verification of the blob/model reconciliation utility (`ollama-cli.py`).

Strings are embedded as lists of characters (`Str`); Python string
operations become structural recursions on these lists.  Filesystem
state is passed explicitly: the manifest tree as a list of parsed
files, the blob directory as a list of `(filename, size)` pairs, and
`stat` as a partial size lookup.  The floating-point "size" display
string (`format_size`) is the one part left unmodelled.
-/

abbrev Str := List Char

/-- Coerce a Lean string literal to the character-list embedding. -/
def str (s : String) : Str := s.data

/-- Python `s.startswith(p)`. -/
def startsWith : Str → Str → Bool
  | [], _ => true
  | _ :: _, [] => false
  | p :: ps, c :: cs => if p = c then startsWith ps cs else false

/-- Python `s.split(sep, 1)[0]`: the characters before the first `sep`. -/
def pySplitHead1 (sep : Char) : Str → Str
  | [] => []
  | c :: cs => if c = sep then [] else c :: pySplitHead1 sep cs

/-- Python `s.lower()` (ASCII case folding suffices for the inputs here). -/
def pyLower (s : Str) : Str := s.map Char.toLower

/-- Python `s.strip()`: drop leading and trailing whitespace. -/
def pyStrip (s : Str) : Str :=
  ((s.dropWhile Char.isWhitespace).reverse.dropWhile Char.isWhitespace).reverse

/-- Python `sep.join(parts)`. -/
def joinSep (sep : Str) : List Str → Str
  | [] => []
  | [x] => x
  | x :: y :: rest => x ++ sep ++ joinSep sep (y :: rest)

/-- Python `s.split(sep)` (every occurrence; empty pieces kept). -/
def pySplitAll (sep : Char) : Str → List Str
  | [] => [[]]
  | c :: cs =>
    if c = sep then [] :: pySplitAll sep cs
    else
      match pySplitAll sep cs with
      | [] => [[c]]
      | p :: ps => (c :: p) :: ps

/-- `normalize_model_name`: strip a leading `library/`, cut at first `/`. -/
def normalize_model_name (model_path : Str) : Str :=
  let p := if startsWith (str "library/") model_path
           then model_path.drop (str "library/").length
           else model_path
  pySplitHead1 '/' p

/-- Independent reading of the spec: the first path segment. -/
def firstSegment (p : Str) : Str := p.takeWhile (fun c => decide (c ≠ '/'))

/-- A Python value as seen by the digest check: a string or anything else. -/
inductive PyVal where
  | str (s : Str)
  | nonstr
deriving DecidableEq

/-- The blob→models mapping: association list from hash to set of model
names (the Python `set` is a duplicate-free list here). -/
abbrev Map := List (Str × List Str)

/-- Python `set.add`. -/
def setAdd (s : List Str) (x : Str) : List Str :=
  if x ∈ s then s else s ++ [x]

/-- Python `dict.setdefault(h, set()).add(name)` on the mapping. -/
def mapAdd : Map → Str → Str → Map
  | [], h, n => [(h, [n])]
  | (k, v) :: rest, h, n =>
    if k = h then (k, setAdd v n) :: rest else (k, v) :: mapAdd rest h n

/-- Python `m.get(h, [])` (set read as list). -/
def mapGet (m : Map) (h : Str) : List Str :=
  ((m.find? (fun p => decide (p.1 = h))).map Prod.snd).getD []

/-- `h in m` for the mapping. -/
def hasKey (m : Map) (h : Str) : Prop := ∃ v, (h, v) ∈ m

/-- `add_digest` (inside `collect_blob_mappings`): accept only string
digests with the `sha256:` prefix; the hash is everything after it
(`digest.split("sha256:", 1)[1]`, which is `digest[7:]` given the
prefix check). -/
def add_digest (m : Map) (model_name : Str) (digest : Option PyVal) : Map :=
  match digest with
  | some (.str s) =>
    if startsWith (str "sha256:") s then mapAdd m (s.drop (str "sha256:").length) model_name
    else m
  | _ => m

/-- A JSON value as inspected by the manifest walk: an object with an
optional `digest` field, or anything that is not an object. -/
inductive JVal where
  | dict (digest : Option PyVal)
  | nondict
deriving DecidableEq

/-- The parts of a parsed manifest the scanner reads: `data.get("config")`
and `data.get("layers", [])`. -/
structure MJson where
  config : Option JVal
  layers : List JVal
deriving DecidableEq

/-- A file under the manifest root: its path relative to the root and
its parse result (`none` = unreadable or invalid JSON, skipped). -/
structure ManifestFile where
  relPath : Str
  parsed : Option MJson
deriving DecidableEq

/-- The per-file body of the `collect_blob_mappings` loop. -/
def processManifest (acc : Map) (mf : ManifestFile) : Map :=
  match mf.parsed with
  | none => acc
  | some data =>
    let model_name := normalize_model_name mf.relPath
    let acc := match data.config with
      | some (.dict d) => add_digest acc model_name d
      | _ => acc
    data.layers.foldl
      (fun acc l => match l with
        | .dict d => add_digest acc model_name d
        | .nondict => acc) acc

/-- `collect_blob_mappings`: fold the manifest files in walk order. -/
def collect_blob_mappings (manifests : List ManifestFile) : Map :=
  manifests.foldl processManifest []

/-- Source-side hex test: `c in "0123456789abcdef"`. -/
def isHexSrc (c : Char) : Bool := decide (c ∈ str "0123456789abcdef")

/-- `extract_blob_hash_relaxed`: fallback parse for filenames without the
`sha256-` prefix. -/
def extract_blob_hash_relaxed (name : Str) : Option Str :=
  let n := pyLower name
  let n := pySplitHead1 '.' n
  let n := if startsWith (str "sha256") n then n.drop (str "sha256").length else n
  if n.length < 40 ∨ 128 < n.length then none
  else if ¬ (n.all isHexSrc = true) then none
  else some n

/-- The candidate string the relaxed extractor validates: lowercased,
truncated at the first dot, with a leading `sha256` stripped. -/
def relaxedStem (name : Str) : Str :=
  let n := pySplitHead1 '.' (pyLower name)
  if startsWith (str "sha256") n then n.drop (str "sha256").length else n

/-- The per-filename logic of the `list_all_blobs` loop: primary
`sha256-` rule, else the relaxed fallback. -/
def fileHash (name : Str) : Option Str :=
  if startsWith (str "sha256-") name = true ∧ (str "sha256-").length < name.length then
    some (name.drop (str "sha256-").length)
  else
    extract_blob_hash_relaxed name

/-- Strict lexicographic comparison of character lists (Python `<` on
strings, by code point). -/
def strLtB : Str → Str → Bool
  | _, [] => false
  | [], _ :: _ => true
  | a :: as, b :: bs => if a < b then true else if b < a then false else strLtB as bs

/-- `s <= t` on strings, as the negation of the strict comparison. -/
def strLeB (s t : Str) : Bool := !(strLtB t s)

/-- Python `False < True` on booleans. -/
def boolLtB (x y : Bool) : Bool := !x && y

/-- Lexicographic combination of two strict comparisons, as Python
compares tuples componentwise. -/
def pairLtB (la : α → α → Bool) (lb : β → β → Bool) (x y : α × β) : Bool :=
  if la x.1 y.1 then true
  else if la y.1 x.1 then false
  else lb x.2 y.2

/-- Strict lexicographic comparison of a `(bool, str, str)` key tuple,
as Python compares the `--sort-by-model` key. -/
def lex3LtB (x y : Bool × Str × Str) : Bool :=
  pairLtB boolLtB (pairLtB strLtB strLtB) x y

/-- `<=` on key tuples. -/
def lex3LeB (x y : Bool × Str × Str) : Bool := !(lex3LtB y x)

/-- Ascending string order as a relation (Python `sorted`). -/
def strRel (s t : Str) : Prop := strLeB s t = true

instance : DecidableRel strRel :=
  fun s t => inferInstanceAs (Decidable (strLeB s t = true))

/-- Python `sorted(list_of_strings)`. -/
def sortStrs (l : List Str) : List Str := List.insertionSort strRel l

/-- `list_all_blobs`: hashes of all files in the blob directory, as a
sorted deduplicated list (the Python `set` then `sorted`). -/
def list_all_blobs (names : List Str) : List Str :=
  List.insertionSort strRel (names.filterMap fileHash).dedup

/-- One output row.  The `size` display string (float formatting in
`format_size`) is not modelled; all claims touch the other fields. -/
structure Row where
  blob : Str
  models : Str
  size_bytes : Nat
  is_orphan : Str
deriving DecidableEq

/-- `size_bytes`: stat the path, `0` on failure (`st` is the stat map). -/
def size_bytes (st : Str → Option Nat) (path : Str) : Nat := (st path).getD 0

/-- The stat function induced by the blob directory contents. -/
def statOf (files : List (Str × Nat)) (name : Str) : Option Nat :=
  (files.find? (fun p => decide (p.1 = name))).map Prod.snd

/-- The `--sort-by-model` key: `(r["models"] == "", r["models"], r["blob"])`. -/
def rowKey (r : Row) : Bool × Str × Str := (decide (r.models = []), r.models, r.blob)

/-- The relation `rows.sort(key=..., reverse=rev)` sorts by for
`--sort-by-model`: `reverse=True` flips the whole key comparison. -/
def modelRel (rev : Bool) (a b : Row) : Prop :=
  (if rev then lex3LeB (rowKey b) (rowKey a) else lex3LeB (rowKey a) (rowKey b)) = true

instance (rev : Bool) : DecidableRel (modelRel rev) :=
  fun a b => inferInstanceAs (Decidable (_ = true))

/-- Relation for `--sort-by-blob`. -/
def blobRel (rev : Bool) (a b : Row) : Prop :=
  (if rev then strLeB b.blob a.blob else strLeB a.blob b.blob) = true

instance (rev : Bool) : DecidableRel (blobRel rev) :=
  fun a b => inferInstanceAs (Decidable (_ = true))

/-- Relation for `--sort-by-size`. -/
def sizeRel (rev : Bool) (a b : Row) : Prop :=
  (if rev then decide (b.size_bytes ≤ a.size_bytes)
   else decide (a.size_bytes ≤ b.size_bytes)) = true

instance (rev : Bool) : DecidableRel (sizeRel rev) :=
  fun a b => inferInstanceAs (Decidable (_ = true))

/-- `rows.sort(key=lambda r: (r["models"] == "", r["models"], r["blob"]),
reverse=rev)` (stable, as Python's sort). -/
def sortByModel (rev : Bool) (rows : List Row) : List Row :=
  List.insertionSort (modelRel rev) rows

/-- The row built for one enumerated blob hash in the `main` loop. -/
def rowFor (st : Str → Option Nat) (m : Map) (h : Str) : Row :=
  let blob_file := str "sha256-" ++ h
  let models := sortStrs (mapGet m h)
  let bsize := size_bytes st blob_file
  { blob := str "sha256-" ++ h
    models := joinSep (str "|") models
    size_bytes := bsize
    is_orphan := if models.length = 0 then str "yes" else str "no" }

/-- The full reconciliation loop: one row per enumerated hash, in order. -/
def buildRows (st : Str → Option Nat) (m : Map) (blobs : List Str) : List Row :=
  blobs.map (rowFor st m)

/-- The `orphan_files` list collected during the loop: the reconstructed
`sha256-<hash>` paths of the orphan rows. -/
def orphanFilesOf (m : Map) (blobs : List Str) : List Str :=
  blobs.filterMap (fun h =>
    if (sortStrs (mapGet m h)).length = 0 then some (str "sha256-" ++ h) else none)

/-- `str(n)` for the `size_bytes` cell. -/
def natStr (n : Nat) : Str := (toString n).data

/-- `r[c]` for the modelled columns (the float `size` string is out of
scope and yields a placeholder). -/
def getCol (r : Row) (c : Str) : Str :=
  if c = str "blob" then r.blob
  else if c = str "models" then r.models
  else if c = str "size_bytes" then natStr r.size_bytes
  else if c = str "is_orphan" then r.is_orphan
  else []

/-- Python `s.ljust(w)`. -/
def ljust (s : Str) (w : Nat) : Str := s ++ List.replicate (w - s.length) ' '

/-- `colorize`: wrap in an ANSI sequence when enabled. -/
def colorize (text color : Str) (enable : Bool) : Str :=
  if enable then str "\x1b[" ++ color ++ str "m" ++ text ++ str "\x1b[0m" else text

/-- `print_table`, as the list of printed lines. -/
def print_table (rows : List Row) (columns : List Str) (enable_color : Bool) : List Str :=
  if rows.isEmpty then [str "No blobs found."]
  else
    let width := fun c => (rows.map (fun r => (getCol r c).length)).foldl max c.length
    let header_line := joinSep (str "  ") (columns.map (fun c => ljust c (width c)))
    colorize header_line (str "1;37") enable_color ::
    List.replicate header_line.length '-' ::
    rows.map (fun r =>
      joinSep (str "  ") (columns.map (fun c =>
        let val := ljust (getCol r c) (width c)
        if r.is_orphan = str "yes" then colorize val (str "31") enable_color else val)))

/-- One CSV field under the csv module's minimal quoting. -/
def csvField (s : Str) : Str :=
  if s.any (fun c => decide (c = ',') || decide (c = '"') || decide (c = '\n') || decide (c = '\r')) then
    '"' :: (s.flatMap (fun c => if c = '"' then ['"', '"'] else [c])) ++ ['"']
  else s

/-- `write_csv`, as the list of emitted records: a header row, then one
record per row.  There is no empty-rows check in the source. -/
def write_csv (rows : List Row) (columns : List Str) : List Str :=
  joinSep (str ",") (columns.map csvField) ::
  rows.map (fun r => joinSep (str ",") (columns.map (fun c => csvField (getCol r c))))

/-- The configuration surface the validated claims depend on. -/
structure Args where
  columns : Str
  sort_by_blob : Bool := false
  sort_by_model : Bool := false
  sort_by_size : Bool := false
  sort_asc : Bool := false
  sort_desc : Bool := false
  only_orphans : Bool := false
deriving DecidableEq

/-- The fixed allowed column set. -/
def allCols : List Str :=
  [str "blob", str "models", str "size_bytes", str "size", str "is_orphan"]

/-- `[c.strip() for c in args.columns.split(",") if c.strip()]`. -/
def parseColumns (a : Args) : List Str :=
  ((pySplitAll ',' a.columns).map pyStrip).filter (fun c => !c.isEmpty)

/-- `sum(sort_flags)`. -/
def countSortFlags (a : Args) : Nat :=
  (if a.sort_by_blob then 1 else 0) + (if a.sort_by_model then 1 else 0) +
  (if a.sort_by_size then 1 else 0)

/-- The up-front configuration validation (`parser.error` = `Except.error`,
which exits with a non-zero status). -/
def validate (a : Args) : Except Str (List Str) :=
  let columns := parseColumns a
  if columns.isEmpty then Except.error (str "No columns specified in --columns")
  else
    let unknown := columns.filter (fun c => decide (c ∉ allCols))
    if !unknown.isEmpty then
      Except.error (str "Unknown columns: " ++ joinSep (str ", ") unknown ++
        str ". Allowed: " ++ joinSep (str ", ") (sortStrs allCols))
    else if 1 < countSortFlags a then
      Except.error (str "Only one --sort-by option allowed")
    else if a.sort_asc && a.sort_desc then
      Except.error (str "Choose only one: --sort-asc or --sort-desc")
    else Except.ok columns

/-- The model cache on disk: manifest files and the blob directory. -/
structure World where
  manifests : List ManifestFile
  blobFiles : List (Str × Nat)

/-- The sorting step of `main`. -/
def applySort (a : Args) (rows : List Row) : List Row :=
  let rev := a.sort_desc
  if a.sort_by_blob then List.insertionSort (blobRel rev) rows
  else if a.sort_by_model then sortByModel rev rows
  else if a.sort_by_size then List.insertionSort (sizeRel rev) rows
  else rows

/-- `main` up to the rendered row list: validation, scanning,
enumeration, reconciliation, filtering, sorting. -/
def runMain (a : Args) (w : World) : Except Str (List Row) :=
  match validate a with
  | Except.error e => Except.error e
  | Except.ok _ =>
    let blob_to_models := collect_blob_mappings w.manifests
    let blobs := list_all_blobs (w.blobFiles.map Prod.fst)
    let rows := buildRows (statOf w.blobFiles) blob_to_models blobs
    let rows := if a.only_orphans
                then rows.filter (fun r => decide (r.is_orphan = str "yes"))
                else rows
    Except.ok (applySort a rows)

/-- The `--delete-orphans` block: returns the surviving files and the
printed messages.  `confirm` is the interactive reply (read only when
`force` is off and there are orphans). -/
def delete_orphans_flow (force : Bool) (confirm : Str) (orphan_files : List Str)
    (files : List (Str × Nat)) : List (Str × Nat) × List Str :=
  if orphan_files.isEmpty then (files, [str "No orphan blobs found."])
  else
    let listing := (str "Orphan blobs to delete:") ::
      orphan_files.map (fun f => str "  blobs/" ++ f)
    if !force && !(decide (pyLower (pyStrip confirm) = str "yes")) then
      (files, listing ++ [str "Aborted."])
    else
      let msgs := orphan_files.map (fun f =>
        if files.any (fun p => decide (p.1 = f)) then str "Deleted: blobs/" ++ f
        else str "Failed: blobs/" ++ f)
      (files.filter (fun p => !(orphan_files.any (fun f => decide (p.1 = f)))),
       listing ++ msgs ++ [str "Done."])

/-- Concrete rows from the spec's sorting example. -/
def rowA : Row :=
  { blob := str "sha256-a", models := str "m1", size_bytes := 0, is_orphan := str "no" }

def rowB : Row :=
  { blob := str "sha256-z", models := [], size_bytes := 0, is_orphan := str "yes" }

/-- A second non-empty row, for exercising the non-empty ordering. -/
def rowC : Row :=
  { blob := str "sha256-b", models := str "m2", size_bytes := 0, is_orphan := str "no" }

/-- The spec's reading of a hex digit `0-9a-f`. -/
def isHexSpec (c : Char) : Prop := ('0' ≤ c ∧ c ≤ '9') ∨ ('a' ≤ c ∧ c ≤ 'f')

instance (c : Char) : Decidable (isHexSpec c) := by unfold isHexSpec; infer_instance

/-- A configuration requesting the unknown column `bogus`. -/
def argsBad : Args := { columns := str "blob,bogus" }

/-- Two manifests, for `modelA` and `modelB`, both referencing the
digest `sha256:aaaa` from their config. -/
def mfA : ManifestFile :=
  { relPath := str "library/modelA/latest"
    parsed := some { config := some (.dict (some (.str (str "sha256:aaaa")))), layers := [] } }

def mfB : ManifestFile :=
  { relPath := str "library/modelB/latest"
    parsed := some { config := some (.dict (some (.str (str "sha256:aaaa")))), layers := [] } }

/-- A blob filename matched only by the relaxed fallback rule. -/
def relaxedName : Str := List.replicate 40 'a' ++ str ".bin"

/-- The hash the relaxed rule extracts from `relaxedName`. -/
def relaxedHash : Str := List.replicate 40 'a'

theorem strLtB_irrefl (s : Str) : strLtB s s = false := by
  induction s with
  | nil => rfl
  | cons a as ih => simp [strLtB, ih]

theorem strLtB_asymm : ∀ {s t : Str}, strLtB s t = true → strLtB t s = false := by
  intro s t h
  induction s generalizing t with
  | nil =>
    cases t with
    | nil => simp [strLtB] at h
    | cons b bs => rfl
  | cons a as ih =>
    cases t with
    | nil => simp [strLtB] at h
    | cons b bs =>
      simp only [strLtB] at h ⊢
      rcases lt_trichotomy a b with hab | hab | hab
      · simp [if_neg (lt_asymm hab), if_pos hab]
      · subst hab
        simp only [lt_irrefl, if_false, if_neg (lt_irrefl a)] at h ⊢
        exact ih h
      · simp [if_neg (lt_asymm hab), if_pos hab] at h

theorem strLtB_trans : ∀ {s t u : Str},
    strLtB s t = true → strLtB t u = true → strLtB s u = true := by
  intro s t u h1 h2
  induction s generalizing t u with
  | nil =>
    cases u with
    | nil =>
      cases t with
      | nil => simp [strLtB] at h1
      | cons b bs => simp [strLtB] at h2
    | cons c cs => rfl
  | cons a as ih =>
    cases t with
    | nil => simp [strLtB] at h1
    | cons b bs =>
      cases u with
      | nil => simp [strLtB] at h2
      | cons c cs =>
        simp only [strLtB] at h1 h2 ⊢
        rcases lt_trichotomy a b with hab | hab | hab
        · rcases lt_trichotomy b c with hbc | hbc | hbc
          · simp [if_pos (lt_trans hab hbc)]
          · subst hbc; simp [if_pos hab]
          · simp [if_neg (lt_asymm hbc), if_pos hbc] at h2
        · subst hab
          simp only [lt_irrefl, if_neg (lt_irrefl a)] at h1
          rcases lt_trichotomy a c with hac | hac | hac
          · simp [if_pos hac]
          · subst hac
            simp only [lt_irrefl, if_neg (lt_irrefl a)] at h2 ⊢
            exact ih h1 h2
          · simp [if_neg (lt_asymm hac), if_pos hac] at h2
        · simp [if_neg (lt_asymm hab), if_pos hab] at h1

theorem strLtB_conn : ∀ {s t : Str},
    strLtB s t = false → strLtB t s = false → s = t := by
  intro s t h1 h2
  induction s generalizing t with
  | nil =>
    cases t with
    | nil => rfl
    | cons b bs => simp [strLtB] at h1
  | cons a as ih =>
    cases t with
    | nil => simp [strLtB] at h2
    | cons b bs =>
      simp only [strLtB] at h1 h2
      rcases lt_trichotomy a b with hab | hab | hab
      · simp [if_pos hab] at h1
      · subst hab
        simp only [lt_irrefl, if_neg (lt_irrefl a)] at h1 h2
        rw [ih h1 h2]
      · simp [if_pos hab] at h2

theorem boolLtB_asymm : ∀ x y : Bool, boolLtB x y = true → boolLtB y x = false := by decide

theorem boolLtB_trans : ∀ x y z : Bool,
    boolLtB x y = true → boolLtB y z = true → boolLtB x z = true := by decide

theorem boolLtB_conn : ∀ x y : Bool,
    boolLtB x y = false → boolLtB y x = false → x = y := by decide

theorem pairLtB_asymm {la : α → α → Bool} {lb : β → β → Bool}
    (ha : ∀ a b, la a b = true → la b a = false)
    (hb : ∀ c d, lb c d = true → lb d c = false) :
    ∀ {x y : α × β}, pairLtB la lb x y = true → pairLtB la lb y x = false := by
  rintro ⟨x1, x2⟩ ⟨y1, y2⟩ h
  simp only [pairLtB] at h ⊢
  cases h1 : la x1 y1 <;> cases h2 : la y1 x1 <;> simp only [h1, h2] at h ⊢ <;>
    simp at h ⊢
  · exact hb _ _ h
  · rw [ha _ _ h1] at h2; exact Bool.noConfusion h2

theorem pairLtB_trans {la : α → α → Bool} {lb : β → β → Bool}
    (ha_as : ∀ a b, la a b = true → la b a = false)
    (ha_tr : ∀ a b c, la a b = true → la b c = true → la a c = true)
    (ha_co : ∀ a b, la a b = false → la b a = false → a = b)
    (hb_tr : ∀ a b c, lb a b = true → lb b c = true → lb a c = true) :
    ∀ {x y z : α × β}, pairLtB la lb x y = true → pairLtB la lb y z = true →
      pairLtB la lb x z = true := by
  rintro ⟨x1, x2⟩ ⟨y1, y2⟩ ⟨z1, z2⟩ h1 h2
  simp only [pairLtB] at h1 h2 ⊢
  cases e1 : la x1 y1 with
  | true =>
    cases f1 : la y1 z1 with
    | true => simp [ha_tr _ _ _ e1 f1]
    | false =>
      cases f2 : la z1 y1 with
      | true => rw [f1, f2] at h2; simp at h2
      | false =>
        have hyz : y1 = z1 := ha_co _ _ f1 f2
        subst hyz
        simp [e1]
  | false =>
    cases e2 : la y1 x1 with
    | true => rw [e1, e2] at h1; simp at h1
    | false =>
      have hxy : x1 = y1 := ha_co _ _ e1 e2
      subst hxy
      rw [e1] at h1
      simp only [Bool.false_eq_true, if_false] at h1
      cases f1 : la x1 z1 with
      | true => simp [f1]
      | false =>
        cases f2 : la z1 x1 with
        | true => rw [f1, f2] at h2; simp at h2
        | false =>
          rw [f1, f2] at h2
          simp only [Bool.false_eq_true, if_false] at h2
          simp [f1, f2, hb_tr _ _ _ h1 h2]

theorem pairLtB_conn {la : α → α → Bool} {lb : β → β → Bool}
    (ha_co : ∀ a b, la a b = false → la b a = false → a = b)
    (hb_co : ∀ a b, lb a b = false → lb b a = false → a = b) :
    ∀ {x y : α × β}, pairLtB la lb x y = false → pairLtB la lb y x = false → x = y := by
  rintro ⟨x1, x2⟩ ⟨y1, y2⟩ h1 h2
  simp only [pairLtB] at h1 h2
  cases e1 : la x1 y1 <;> cases e2 : la y1 x1 <;> simp only [e1, e2] at h1 h2 <;>
    simp at h1 h2
  have : x1 = y1 := ha_co _ _ e1 e2
  rw [this, hb_co _ _ h1 h2]

theorem strPairLtB_asymm : ∀ x y : Str × Str,
    pairLtB strLtB strLtB x y = true → pairLtB strLtB strLtB y x = false :=
  fun x y h => @pairLtB_asymm _ _ strLtB strLtB
    (fun _ _ hh => strLtB_asymm hh) (fun _ _ hh => strLtB_asymm hh) x y h

theorem strPairLtB_trans : ∀ x y z : Str × Str,
    pairLtB strLtB strLtB x y = true → pairLtB strLtB strLtB y z = true →
      pairLtB strLtB strLtB x z = true :=
  fun x y z h1 h2 => @pairLtB_trans _ _ strLtB strLtB
    (fun _ _ hh => strLtB_asymm hh)
    (fun _ _ _ hh1 hh2 => strLtB_trans hh1 hh2)
    (fun _ _ hh1 hh2 => strLtB_conn hh1 hh2)
    (fun _ _ _ hh1 hh2 => strLtB_trans hh1 hh2) x y z h1 h2

theorem strPairLtB_conn : ∀ x y : Str × Str,
    pairLtB strLtB strLtB x y = false → pairLtB strLtB strLtB y x = false → x = y :=
  fun x y h1 h2 => @pairLtB_conn _ _ strLtB strLtB
    (fun _ _ hh1 hh2 => strLtB_conn hh1 hh2)
    (fun _ _ hh1 hh2 => strLtB_conn hh1 hh2) x y h1 h2

theorem lex3LtB_asymm : ∀ x y, lex3LtB x y = true → lex3LtB y x = false :=
  fun x y h => @pairLtB_asymm _ _ boolLtB (pairLtB strLtB strLtB)
    (fun a b hh => boolLtB_asymm a b hh) strPairLtB_asymm x y h

theorem lex3LtB_trans : ∀ x y z,
    lex3LtB x y = true → lex3LtB y z = true → lex3LtB x z = true :=
  fun x y z h1 h2 => @pairLtB_trans _ _ boolLtB (pairLtB strLtB strLtB)
    (fun a b hh => boolLtB_asymm a b hh)
    (fun a b c hh1 hh2 => boolLtB_trans a b c hh1 hh2)
    (fun a b hh1 hh2 => boolLtB_conn a b hh1 hh2)
    strPairLtB_trans x y z h1 h2

theorem lex3LtB_conn : ∀ x y,
    lex3LtB x y = false → lex3LtB y x = false → x = y :=
  fun x y h1 h2 => @pairLtB_conn _ _ boolLtB (pairLtB strLtB strLtB)
    (fun a b hh1 hh2 => boolLtB_conn a b hh1 hh2) strPairLtB_conn x y h1 h2

theorem ltB_le_total (lt' : α → α → Bool)
    (has : ∀ {a b}, lt' a b = true → lt' b a = false) :
    ∀ x y : α, (!lt' y x) = true ∨ (!lt' x y) = true := by
  intro x y
  cases h : lt' y x with
  | false => left; rfl
  | true => right; rw [has h]; rfl

theorem ltB_le_trans (lt' : α → α → Bool)
    (htr : ∀ {a b c}, lt' a b = true → lt' b c = true → lt' a c = true)
    (hco : ∀ {a b}, lt' a b = false → lt' b a = false → a = b) :
    ∀ x y z : α, (!lt' y x) = true → (!lt' z y) = true → (!lt' z x) = true := by
  intro x y z h1 h2
  rw [Bool.not_eq_true'] at h1 h2 ⊢
  cases hzx : lt' z x with
  | false => rfl
  | true =>
    exfalso
    cases hxy : lt' x y with
    | true =>
      have hzy := htr hzx hxy
      rw [h2] at hzy
      exact Bool.noConfusion hzy
    | false =>
      have hxe : x = y := hco hxy h1
      subst hxe
      rw [hzx] at h2
      exact Bool.noConfusion h2

theorem lex3LeB_total : ∀ x y, lex3LeB x y = true ∨ lex3LeB y x = true :=
  fun x y => ltB_le_total lex3LtB (fun hh => lex3LtB_asymm _ _ hh) x y

theorem lex3LeB_trans : ∀ x y z,
    lex3LeB x y = true → lex3LeB y z = true → lex3LeB x z = true :=
  fun x y z h1 h2 =>
    ltB_le_trans lex3LtB (fun hh1 hh2 => lex3LtB_trans _ _ _ hh1 hh2)
      (fun hh1 hh2 => lex3LtB_conn _ _ hh1 hh2) x y z h1 h2

theorem strRel_total : ∀ s t : Str, strRel s t ∨ strRel t s :=
  fun s t => ltB_le_total strLtB (fun hh => strLtB_asymm hh) s t

theorem strRel_trans : ∀ s t u : Str, strRel s t → strRel t u → strRel s u :=
  fun s t u h1 h2 =>
    ltB_le_trans strLtB (fun hh1 hh2 => strLtB_trans hh1 hh2)
      (fun hh1 hh2 => strLtB_conn hh1 hh2) s t u h1 h2

theorem lex3LeB_first : ∀ x y : Bool × Str × Str,
    lex3LeB x y = true → x.1 = true → y.1 = true := by
  rintro ⟨x1, xr⟩ ⟨y1, yr⟩ h hx
  cases y1 with
  | true => rfl
  | false =>
    subst hx
    simp [lex3LeB, lex3LtB, pairLtB, boolLtB] at h

theorem modelRel_total (rev : Bool) : ∀ a b : Row, modelRel rev a b ∨ modelRel rev b a := by
  intro a b
  cases rev
  · exact lex3LeB_total (rowKey a) (rowKey b)
  · exact (lex3LeB_total (rowKey a) (rowKey b)).symm

theorem modelRel_trans (rev : Bool) :
    ∀ a b c : Row, modelRel rev a b → modelRel rev b c → modelRel rev a c := by
  intro a b c h1 h2
  cases rev
  · exact lex3LeB_trans _ _ _ h1 h2
  · exact lex3LeB_trans _ _ _ h2 h1

theorem lex3LeB_nonempty_order {x y : Bool × Str × Str}
    (h : lex3LeB x y = true) (hx : x.1 = false) (hy : y.1 = false) :
    strLtB x.2.1 y.2.1 = true ∨
      (x.2.1 = y.2.1 ∧ strLtB y.2.2 x.2.2 = false) := by
  obtain ⟨x1, xm, xb⟩ := x
  obtain ⟨y1, ym, yb⟩ := y
  have hx' : x1 = false := hx
  have hy' : y1 = false := hy
  subst hx'
  subst hy'
  unfold lex3LeB at h
  rw [Bool.not_eq_true'] at h
  have h' : (if strLtB ym xm = true then true
             else if strLtB xm ym = true then false
             else strLtB yb xb) = false := h
  cases h1 : strLtB ym xm with
  | true => rw [h1] at h'; simp at h'
  | false =>
    rw [h1] at h'
    simp only [Bool.false_eq_true, if_false] at h'
    cases h2 : strLtB xm ym with
    | true => exact Or.inl rfl
    | false =>
      rw [h2] at h'
      simp only [Bool.false_eq_true, if_false] at h'
      exact Or.inr ⟨strLtB_conn h2 h1, h'⟩

/-- C1 (amended): sorting by model places empty-model rows after all
non-empty ones in the ascending direction; the descending flag reverses
the entire key comparison (emptiness component included), so with
descending direction the empty-model rows come first.  In both
directions the non-empty rows are ordered by model string with the blob
identifier as tie-break: ascending rows satisfy models-then-blob
lexicographic order, descending rows the reversed order. -/
theorem sortByModel_empty_placement (rows : List Row) :
    (∀ i j (hi : i < (sortByModel false rows).length)
        (hj : j < (sortByModel false rows).length), i ≤ j →
        ((sortByModel false rows).get ⟨i, hi⟩).models = [] →
        ((sortByModel false rows).get ⟨j, hj⟩).models = []) ∧
    (∀ i j (hi : i < (sortByModel true rows).length)
        (hj : j < (sortByModel true rows).length), i ≤ j →
        ((sortByModel true rows).get ⟨i, hi⟩).models ≠ [] →
        ((sortByModel true rows).get ⟨j, hj⟩).models ≠ []) ∧
    (∀ i j (hi : i < (sortByModel false rows).length)
        (hj : j < (sortByModel false rows).length), i ≤ j →
        ((sortByModel false rows).get ⟨i, hi⟩).models ≠ [] →
        ((sortByModel false rows).get ⟨j, hj⟩).models ≠ [] →
        (strLtB ((sortByModel false rows).get ⟨i, hi⟩).models
            ((sortByModel false rows).get ⟨j, hj⟩).models = true ∨
          (((sortByModel false rows).get ⟨i, hi⟩).models
              = ((sortByModel false rows).get ⟨j, hj⟩).models ∧
            strLtB ((sortByModel false rows).get ⟨j, hj⟩).blob
              ((sortByModel false rows).get ⟨i, hi⟩).blob = false))) ∧
    (∀ i j (hi : i < (sortByModel true rows).length)
        (hj : j < (sortByModel true rows).length), i ≤ j →
        ((sortByModel true rows).get ⟨i, hi⟩).models ≠ [] →
        ((sortByModel true rows).get ⟨j, hj⟩).models ≠ [] →
        (strLtB ((sortByModel true rows).get ⟨j, hj⟩).models
            ((sortByModel true rows).get ⟨i, hi⟩).models = true ∨
          (((sortByModel true rows).get ⟨j, hj⟩).models
              = ((sortByModel true rows).get ⟨i, hi⟩).models ∧
            strLtB ((sortByModel true rows).get ⟨i, hi⟩).blob
              ((sortByModel true rows).get ⟨j, hj⟩).blob = false))) := by
  have hsorted : ∀ rev, (sortByModel rev rows).Sorted (modelRel rev) := by
    intro rev
    haveI : IsTotal Row (modelRel rev) := ⟨modelRel_total rev⟩
    haveI : IsTrans Row (modelRel rev) := ⟨modelRel_trans rev⟩
    exact List.sorted_insertionSort _ _
  refine ⟨?_, ?_, ?_, ?_⟩
  · intro i j hi hj hij hempty
    rcases Nat.eq_or_lt_of_le hij with rfl | hlt
    · exact hempty
    · have hrel := (hsorted false).rel_get_of_lt
        (show (⟨i, hi⟩ : Fin (sortByModel false rows).length) < ⟨j, hj⟩ from hlt)
      have h1 : (rowKey ((sortByModel false rows).get ⟨i, hi⟩)).1 = true := by
        simpa [rowKey] using hempty
      exact of_decide_eq_true (lex3LeB_first _ _ hrel h1)
  · intro i j hi hj hij hne hempty
    rcases Nat.eq_or_lt_of_le hij with rfl | hlt
    · exact hne hempty
    · have hrel := (hsorted true).rel_get_of_lt
        (show (⟨i, hi⟩ : Fin (sortByModel true rows).length) < ⟨j, hj⟩ from hlt)
      have h1 : (rowKey ((sortByModel true rows).get ⟨j, hj⟩)).1 = true := by
        simpa [rowKey] using hempty
      exact hne (of_decide_eq_true (lex3LeB_first _ _ hrel h1))
  · intro i j hi hj hij hnei hnej
    rcases Nat.eq_or_lt_of_le hij with rfl | hlt
    · exact Or.inr ⟨rfl, strLtB_irrefl _⟩
    · have hrel := (hsorted false).rel_get_of_lt
        (show (⟨i, hi⟩ : Fin (sortByModel false rows).length) < ⟨j, hj⟩ from hlt)
      exact lex3LeB_nonempty_order hrel (decide_eq_false hnei) (decide_eq_false hnej)
  · intro i j hi hj hij hnei hnej
    rcases Nat.eq_or_lt_of_le hij with rfl | hlt
    · exact Or.inr ⟨rfl, strLtB_irrefl _⟩
    · have hrel := (hsorted true).rel_get_of_lt
        (show (⟨i, hi⟩ : Fin (sortByModel true rows).length) < ⟨j, hj⟩ from hlt)
      exact lex3LeB_nonempty_order hrel (decide_eq_false hnej) (decide_eq_false hnei)

/-- Witness for the amended C1 theorem: the empty-model row is last in
an ascending sort, and two non-empty rows come out in model-string
order. -/
theorem sortByModel_empty_placement_witness :
    ((sortByModel false [rowB, rowA]).get ⟨1, by decide⟩).models = [] ∧
    (strLtB ((sortByModel false [rowC, rowA]).get ⟨0, by decide⟩).models
        ((sortByModel false [rowC, rowA]).get ⟨1, by decide⟩).models = true ∨
      (((sortByModel false [rowC, rowA]).get ⟨0, by decide⟩).models
          = ((sortByModel false [rowC, rowA]).get ⟨1, by decide⟩).models ∧
        strLtB ((sortByModel false [rowC, rowA]).get ⟨1, by decide⟩).blob
          ((sortByModel false [rowC, rowA]).get ⟨0, by decide⟩).blob = false)) :=
  ⟨(sortByModel_empty_placement [rowB, rowA]).1 1 1 (by decide) (by decide)
      (Nat.le_refl 1) (by decide),
   (sortByModel_empty_placement [rowC, rowA]).2.2.1 0 1 (by decide) (by decide)
      (by decide) (by decide) (by decide)⟩

/-- C1 counterexample: with descending direction requested, the sorted
output places the empty-model row `rowB` before the non-empty `rowA`,
contradicting the claim that empty-model rows are placed last
regardless of direction. -/
theorem sortByModel_desc_puts_empty_first :
    sortByModel true [rowA, rowB] = [rowB, rowA] ∧
    rowB.models = [] ∧ rowA.models ≠ [] := by decide

/-- C2 counterexample: with no rows the CSV renderer emits a header-only
record list, not the "No blobs found." message. -/
theorem write_csv_empty_is_header_only :
    write_csv [] [str "blob"] = [str "blob"] ∧
    str "blob" ≠ str "No blobs found." := by decide

/-- C2 (amended): with no rows the table renderer prints exactly the
literal message "No blobs found.", while the CSV renderer emits exactly
the header record and no data records. -/
theorem empty_rows_rendering (columns : List Str) (enable_color : Bool) :
    print_table [] columns enable_color = [str "No blobs found."] ∧
    write_csv [] columns = [joinSep (str ",") (columns.map csvField)] :=
  ⟨rfl, rfl⟩

theorem pySplitHead1_eq_takeWhile (sep : Char) (s : Str) :
    pySplitHead1 sep s = s.takeWhile (fun c => decide (c ≠ sep)) := by
  induction s with
  | nil => rfl
  | cons c cs ih =>
    simp only [pySplitHead1, List.takeWhile_cons]
    by_cases h : c = sep
    · subst h; simp
    · simp [h, ih]

/-- C7: the derived model name is the first path segment after stripping
a leading `library/` when present, and the first path segment of the
unmodified relative path otherwise. -/
theorem normalize_model_name_spec (p : Str) :
    (startsWith (str "library/") p = true →
      normalize_model_name p = firstSegment (p.drop 8)) ∧
    (startsWith (str "library/") p = false →
      normalize_model_name p = firstSegment p) := by
  constructor
  · intro h
    have hdef : normalize_model_name p = pySplitHead1 '/' (p.drop 8) := by
      simp [normalize_model_name, h, show (str "library/").length = 8 from rfl]
    rw [hdef, pySplitHead1_eq_takeWhile]
    rfl
  · intro h
    have hdef : normalize_model_name p = pySplitHead1 '/' p := by
      simp [normalize_model_name, h]
    rw [hdef, pySplitHead1_eq_takeWhile]
    rfl

/-- Witness for C7 at the spec's two examples. -/
theorem normalize_model_name_spec_witness :
    normalize_model_name (str "library/llama3/latest")
      = firstSegment ((str "library/llama3/latest").drop 8) ∧
    normalize_model_name (str "library/llama3/latest") = str "llama3" ∧
    normalize_model_name (str "mistral/7b") = str "mistral" :=
  ⟨(normalize_model_name_spec (str "library/llama3/latest")).1 (by decide),
   by decide, by decide⟩

theorem mapAdd_hasKey (m : Map) (h n k : Str) :
    hasKey (mapAdd m h n) k ↔ k = h ∨ hasKey m k := by
  induction m with
  | nil =>
    constructor
    · rintro ⟨v, hv⟩
      simp only [mapAdd, List.mem_singleton] at hv
      injection hv with h1 _
      exact Or.inl h1
    · rintro (rfl | ⟨v, hv⟩)
      · exact ⟨[n], List.mem_singleton.mpr rfl⟩
      · exact absurd hv (List.not_mem_nil _)
  | cons p rest ih =>
    obtain ⟨pk, pv⟩ := p
    simp only [mapAdd]
    by_cases hk : pk = h
    · subst hk
      simp only [if_pos rfl]
      constructor
      · rintro ⟨v, hv⟩
        rcases List.mem_cons.mp hv with heq | hmem
        · injection heq with h1 _
          exact Or.inl h1
        · exact Or.inr ⟨v, List.mem_cons_of_mem _ hmem⟩
      · rintro (rfl | ⟨v, hv⟩)
        · exact ⟨setAdd pv n, List.mem_cons_self _ _⟩
        · rcases List.mem_cons.mp hv with heq | hmem
          · injection heq with h1 _
            subst h1
            exact ⟨setAdd pv n, List.mem_cons_self _ _⟩
          · exact ⟨v, List.mem_cons_of_mem _ hmem⟩
    · simp only [if_neg hk]
      constructor
      · rintro ⟨v, hv⟩
        rcases List.mem_cons.mp hv with heq | hmem
        · injection heq with h1 h2
          subst h1
          exact Or.inr ⟨pv, List.mem_cons_self _ _⟩
        · rcases ih.mp ⟨v, hmem⟩ with h1 | ⟨w, hw⟩
          · exact Or.inl h1
          · exact Or.inr ⟨w, List.mem_cons_of_mem _ hw⟩
      · rintro (rfl | ⟨v, hv⟩)
        · obtain ⟨w, hw⟩ := ih.mpr (Or.inl rfl)
          exact ⟨w, List.mem_cons_of_mem _ hw⟩
        · rcases List.mem_cons.mp hv with heq | hmem
          · exact ⟨v, List.mem_cons.mpr (Or.inl heq)⟩
          · obtain ⟨w, hw⟩ := ih.mpr (Or.inr ⟨v, hmem⟩)
            exact ⟨w, List.mem_cons_of_mem _ hw⟩

/-- C6: a manifest digest value contributes an entry to the blob-to-models
mapping exactly when it is a string with the `sha256:` prefix, the
recorded hash being everything after the prefix; any other digest value
leaves the mapping unchanged. -/
theorem add_digest_spec (m : Map) (model_name : Str) (d : Option PyVal) :
    (∀ k, hasKey (add_digest m model_name d) k ↔
      (hasKey m k ∨ ∃ s, d = some (PyVal.str s) ∧
        startsWith (str "sha256:") s = true ∧ k = s.drop 7)) ∧
    ((¬ ∃ s, d = some (PyVal.str s) ∧ startsWith (str "sha256:") s = true) →
      add_digest m model_name d = m) := by
  cases d with
  | none =>
    exact ⟨fun k => by simp [add_digest], fun _ => rfl⟩
  | some v =>
    cases v with
    | nonstr =>
      exact ⟨fun k => by simp [add_digest], fun _ => rfl⟩
    | str s =>
      by_cases hs : startsWith (str "sha256:") s = true
      · constructor
        · intro k
          simp only [add_digest, hs, if_true,
            show (str "sha256:").length = 7 from rfl]
          rw [mapAdd_hasKey]
          constructor
          · rintro (rfl | hm)
            · exact Or.inr ⟨s, rfl, hs, rfl⟩
            · exact Or.inl hm
          · rintro (hm | ⟨t, ht, hts, rfl⟩)
            · exact Or.inr hm
            · injection ht with ht1
              injection ht1 with ht2
              subst ht2
              exact Or.inl rfl
        · intro hne
          exact absurd ⟨s, rfl, hs⟩ hne
      · have hs' : startsWith (str "sha256:") s = false := by
          revert hs; cases startsWith (str "sha256:") s <;> simp
        constructor
        · intro k
          simp [add_digest, hs']
        · intro _
          simp [add_digest, hs']

/-- C4: the reconciled rows are exactly one row per enumerated blob
hash, in the enumerator's order; a hash yields a row exactly when it is
in the enumerated list, so manifest-only hashes yield no row and
unreferenced enumerated hashes still yield one. -/
theorem buildRows_exactly_blobs (st : Str → Option Nat) (m : Map) (blobs : List Str) :
    (buildRows st m blobs).map Row.blob = blobs.map (fun h => str "sha256-" ++ h) ∧
    ∀ h, (str "sha256-" ++ h) ∈ (buildRows st m blobs).map Row.blob ↔ h ∈ blobs := by
  have h1 : (buildRows st m blobs).map Row.blob
      = blobs.map (fun h => str "sha256-" ++ h) := by
    unfold buildRows
    rw [List.map_map]
    rfl
  refine ⟨h1, fun h => ?_⟩
  rw [h1, List.mem_map]
  constructor
  · rintro ⟨a, ha, heq⟩
    have haeq : a = h := List.append_cancel_left heq
    rwa [← haeq]
  · intro hh
    exact ⟨h, hh, rfl⟩

/-- Witness for C4 at a concrete world. -/
theorem buildRows_exactly_blobs_witness :
    (str "sha256-aaaa") ∈ (buildRows (statOf []) [] [str "aaaa"]).map Row.blob :=
  ((buildRows_exactly_blobs (statOf []) [] [str "aaaa"]).2 (str "aaaa")).mpr (by decide)

/-- Witness for C6: a digest without the `sha256:` prefix adds nothing. -/
theorem add_digest_spec_witness :
    add_digest [] (str "modelA") (some (PyVal.str (str "md5:aa"))) = [] :=
  (add_digest_spec [] (str "modelA") (some (PyVal.str (str "md5:aa")))).2
    (by
      rintro ⟨s, hs, hpre⟩
      injection hs with hs1
      injection hs1 with hs2
      subst hs2
      exact absurd hpre (by decide))

theorem isHexSrc_iff (c : Char) : isHexSrc c = true ↔ isHexSpec c := by
  constructor
  · intro h
    have hm : c ∈ (['0', '1', '2', '3', '4', '5', '6', '7'] : List Char)
        ++ ['8', '9', 'a', 'b', 'c', 'd', 'e', 'f'] := of_decide_eq_true h
    rcases List.mem_append.mp hm with hm2 | hm2 <;> fin_cases hm2 <;> decide
  · intro h
    rcases h with ⟨h1, h2⟩ | ⟨h1, h2⟩
    · have l1 : 48 ≤ c.toNat := h1
      have l2 : c.toNat ≤ 57 := h2
      have hv : c.toNat = 48 ∨ c.toNat = 49 ∨ c.toNat = 50 ∨ c.toNat = 51 ∨
          c.toNat = 52 ∨ c.toNat = 53 ∨ c.toNat = 54 ∨ c.toNat = 55 ∨
          c.toNat = 56 ∨ c.toNat = 57 := by omega
      rcases hv with hv | hv | hv | hv | hv | hv | hv | hv | hv | hv <;>
        (rw [← Char.ofNat_toNat c, hv]; decide)
    · have l1 : 97 ≤ c.toNat := h1
      have l2 : c.toNat ≤ 102 := h2
      have hv : c.toNat = 97 ∨ c.toNat = 98 ∨ c.toNat = 99 ∨ c.toNat = 100 ∨
          c.toNat = 101 ∨ c.toNat = 102 := by omega
      rcases hv with hv | hv | hv | hv | hv | hv <;>
        (rw [← Char.ofNat_toNat c, hv]; decide)

theorem extract_closed (name : Str) :
    extract_blob_hash_relaxed name =
      (let n := if startsWith (str "sha256") (pySplitHead1 '.' (pyLower name))
                then (pySplitHead1 '.' (pyLower name)).drop 6
                else pySplitHead1 '.' (pyLower name)
       if n.length < 40 ∨ 128 < n.length then none
       else if ¬ (n.all isHexSrc = true) then none
       else some n) := rfl

/-- C3: a filename starting with `sha256-` and longer than the prefix
yields the verbatim suffix with no validation; otherwise the hash is
the lowercased name, truncated at the first dot, stripped of a leading
`sha256`, and accepted exactly when it is 40-128 hex digits `0-9a-f`,
else the file contributes nothing. -/
theorem fileHash_rules (name : Str) :
    (startsWith (str "sha256-") name = true ∧ 7 < name.length →
      fileHash name = some (name.drop 7)) ∧
    (¬ (startsWith (str "sha256-") name = true ∧ 7 < name.length) →
      fileHash name =
        (let n0 := (pyLower name).takeWhile (fun c => decide (c ≠ '.'))
         let n := if startsWith (str "sha256") n0 then n0.drop 6 else n0
         if 40 ≤ n.length ∧ n.length ≤ 128 ∧ (∀ c ∈ n, isHexSpec c)
         then some n else none)) := by
  constructor
  · intro h
    unfold fileHash
    rw [show List.length (str "sha256-") = 7 from rfl, if_pos h]
  · intro h
    unfold fileHash
    rw [show List.length (str "sha256-") = 7 from rfl, if_neg h, extract_closed,
      ← pySplitHead1_eq_takeWhile]
    show (let n := if startsWith (str "sha256") (pySplitHead1 '.' (pyLower name))
              then (pySplitHead1 '.' (pyLower name)).drop 6
              else pySplitHead1 '.' (pyLower name)
          if n.length < 40 ∨ 128 < n.length then none
          else if ¬ (n.all isHexSrc = true) then none
          else some n) = _
    simp only []
    generalize (if startsWith (str "sha256") (pySplitHead1 '.' (pyLower name))
        then (pySplitHead1 '.' (pyLower name)).drop 6
        else pySplitHead1 '.' (pyLower name)) = n
    by_cases hlen : 40 ≤ n.length ∧ n.length ≤ 128
    · have hnot : ¬ (n.length < 40 ∨ 128 < n.length) := by omega
      rw [if_neg hnot]
      by_cases hhex : n.all isHexSrc = true
      · have hall : ∀ c ∈ n, isHexSpec c := fun c hc =>
          (isHexSrc_iff c).mp (List.all_eq_true.mp hhex c hc)
        rw [if_neg (by simp [hhex]), if_pos ⟨hlen.1, hlen.2, hall⟩]
      · have hno : ¬ (40 ≤ n.length ∧ n.length ≤ 128 ∧ ∀ c ∈ n, isHexSpec c) := by
          rintro ⟨_, _, hall⟩
          exact hhex (List.all_eq_true.mpr fun c hc => (isHexSrc_iff c).mpr (hall c hc))
        rw [if_pos hhex, if_neg hno]
    · have hyes : n.length < 40 ∨ 128 < n.length := by omega
      rw [if_pos hyes, if_neg (by rintro ⟨hl1, hl2, _⟩; omega)]

/-- Witness for C3 at both rules. -/
theorem fileHash_rules_witness :
    fileHash (str "sha256-XYZ") = some ((str "sha256-XYZ").drop 7) ∧
    fileHash (str "sha256-XYZ") = some (str "XYZ") ∧
    fileHash relaxedName = some relaxedHash :=
  ⟨(fileHash_rules (str "sha256-XYZ")).1 (by decide), by decide, by decide⟩

theorem setAdd_nodup {s : List Str} (hs : s.Nodup) (x : Str) : (setAdd s x).Nodup := by
  unfold setAdd
  by_cases hx : x ∈ s
  · rw [if_pos hx]; exact hs
  · rw [if_neg hx]
    refine List.Nodup.append hs (List.nodup_singleton x) ?_
    intro a ha hax
    rw [List.mem_singleton] at hax
    exact hx (hax ▸ ha)

theorem mapAdd_values_nodup : ∀ (m : Map), (∀ p ∈ m, p.2.Nodup) →
    ∀ (h n : Str), ∀ p ∈ mapAdd m h n, p.2.Nodup := by
  intro m
  induction m with
  | nil =>
    intro _ h n p hp
    simp only [mapAdd, List.mem_singleton] at hp
    subst hp
    exact List.nodup_singleton n
  | cons q rest ih =>
    obtain ⟨qk, qv⟩ := q
    intro hm h n p hp
    simp only [mapAdd] at hp
    by_cases hk : qk = h
    · rw [if_pos hk] at hp
      rcases List.mem_cons.mp hp with rfl | hmem
      · exact setAdd_nodup (hm (qk, qv) (List.mem_cons_self _ _)) n
      · exact hm p (List.mem_cons_of_mem _ hmem)
    · rw [if_neg hk] at hp
      rcases List.mem_cons.mp hp with rfl | hmem
      · exact hm (qk, qv) (List.mem_cons_self _ _)
      · exact ih (fun r hr => hm r (List.mem_cons_of_mem _ hr)) h n p hmem

theorem add_digest_values_nodup (m : Map) (hm : ∀ p ∈ m, p.2.Nodup)
    (name : Str) (d : Option PyVal) : ∀ p ∈ add_digest m name d, p.2.Nodup := by
  cases d with
  | none => exact hm
  | some v =>
    cases v with
    | nonstr => exact hm
    | str s =>
      simp only [add_digest]
      by_cases hs : startsWith (str "sha256:") s = true
      · rw [if_pos hs]
        exact mapAdd_values_nodup m hm _ _
      · rw [if_neg hs]
        exact hm

theorem foldl_layers_values_nodup (name : Str) :
    ∀ (layers : List JVal) (acc : Map), (∀ p ∈ acc, p.2.Nodup) →
      ∀ p ∈ layers.foldl (fun acc l => match l with
        | JVal.dict d => add_digest acc name d
        | JVal.nondict => acc) acc, p.2.Nodup := by
  intro layers
  induction layers with
  | nil => intro acc hacc; simpa using hacc
  | cons l rest ih =>
    intro acc hacc
    simp only [List.foldl_cons]
    apply ih
    cases l with
    | dict d => exact add_digest_values_nodup _ hacc _ _
    | nondict => exact hacc

theorem processManifest_values_nodup (acc : Map) (hacc : ∀ p ∈ acc, p.2.Nodup)
    (mf : ManifestFile) : ∀ p ∈ processManifest acc mf, p.2.Nodup := by
  cases hmf : mf.parsed with
  | none => simp only [processManifest, hmf]; exact hacc
  | some data =>
    simp only [processManifest, hmf]
    apply foldl_layers_values_nodup
    cases hc : data.config with
    | none => exact hacc
    | some jv =>
      cases jv with
      | dict d => exact add_digest_values_nodup _ hacc _ _
      | nondict => exact hacc

theorem collect_blob_mappings_values_nodup (ms : List ManifestFile) :
    ∀ p ∈ collect_blob_mappings ms, p.2.Nodup := by
  have hgen : ∀ (l : List ManifestFile) (acc : Map), (∀ p ∈ acc, p.2.Nodup) →
      ∀ p ∈ l.foldl processManifest acc, p.2.Nodup := by
    intro l
    induction l with
    | nil => intro acc hacc; simpa using hacc
    | cons mf rest ih =>
      intro acc hacc
      simp only [List.foldl_cons]
      exact ih _ (processManifest_values_nodup acc hacc mf)
  exact hgen ms [] (by intro p hp; exact absurd hp (List.not_mem_nil _))

theorem mapGet_nodup {m : Map} (hm : ∀ p ∈ m, p.2.Nodup) (h : Str) :
    (mapGet m h).Nodup := by
  unfold mapGet
  cases hf : m.find? (fun p => decide (p.1 = h)) with
  | none => simp
  | some p =>
    simp only [Option.map_some', Option.getD_some]
    exact hm p (List.mem_of_find?_eq_some hf)

/-- C5: a reconciled row's orphan flag is "yes" exactly when the
scanner's mapping has no owning models for its hash, and its models
field is the pipe-join of a sorted duplicate-free permutation of the
owning set; at the spec's two-manifest example this yields
`modelA|modelB` and a non-orphan row. -/
theorem row_orphan_and_models (st : Str → Option Nat) (ms : List ManifestFile) (h : Str) :
    ((rowFor st (collect_blob_mappings ms) h).is_orphan = str "yes" ↔
      mapGet (collect_blob_mappings ms) h = []) ∧
    (∃ l : List Str, l.Perm (mapGet (collect_blob_mappings ms) h) ∧
      l.Sorted strRel ∧ l.Nodup ∧
      (rowFor st (collect_blob_mappings ms) h).models = joinSep (str "|") l) ∧
    ((rowFor (statOf [(str "sha256-aaaa", 42)])
        (collect_blob_mappings [mfA, mfB]) (str "aaaa")).models = str "modelA|modelB" ∧
     (rowFor (statOf [(str "sha256-aaaa", 42)])
        (collect_blob_mappings [mfA, mfB]) (str "aaaa")).is_orphan = str "no") := by
  have hperm : (sortStrs (mapGet (collect_blob_mappings ms) h)).Perm
      (mapGet (collect_blob_mappings ms) h) := List.perm_insertionSort _ _
  have hsorted : (sortStrs (mapGet (collect_blob_mappings ms) h)).Sorted strRel := by
    haveI : IsTotal Str strRel := ⟨strRel_total⟩
    haveI : IsTrans Str strRel := ⟨strRel_trans⟩
    exact List.sorted_insertionSort _ _
  have hnd : (sortStrs (mapGet (collect_blob_mappings ms) h)).Nodup :=
    hperm.nodup_iff.mpr (mapGet_nodup (collect_blob_mappings_values_nodup ms) h)
  refine ⟨?_, ⟨sortStrs (mapGet (collect_blob_mappings ms) h), hperm, hsorted, hnd, rfl⟩,
    by decide, by decide⟩
  have hfield : (rowFor st (collect_blob_mappings ms) h).is_orphan
      = if (sortStrs (mapGet (collect_blob_mappings ms) h)).length = 0
        then str "yes" else str "no" := rfl
  have hlen : (sortStrs (mapGet (collect_blob_mappings ms) h)).length
      = (mapGet (collect_blob_mappings ms) h).length := hperm.length_eq
  rw [hfield]
  by_cases h0 : (sortStrs (mapGet (collect_blob_mappings ms) h)).length = 0
  · rw [if_pos h0]
    constructor
    · intro _
      exact List.length_eq_zero.mp (hlen ▸ h0)
    · intro _; rfl
  · rw [if_neg h0]
    constructor
    · intro hcontra
      exact absurd hcontra (by decide)
    · intro hnil
      exact absurd (by rw [hlen, hnil]; rfl) h0

theorem validate_ok_necessary (a : Args) (cols : List Str)
    (h : validate a = Except.ok cols) :
    (∀ c ∈ parseColumns a, c ∈ allCols) ∧ countSortFlags a ≤ 1 ∧
    ¬ (a.sort_asc = true ∧ a.sort_desc = true) := by
  simp only [validate] at h
  split_ifs at h with h1 h2 h3 h4
  all_goals try contradiction
  refine ⟨?_, Nat.le_of_not_lt h3, ?_⟩
  · intro c hc
    by_contra hnc
    apply h2
    have hmem : c ∈ (parseColumns a).filter (fun c => decide (c ∉ allCols)) :=
      List.mem_filter.mpr ⟨hc, by simpa using hnc⟩
    cases hfil : (parseColumns a).filter (fun c => decide (c ∉ allCols)) with
    | nil => rw [hfil] at hmem; exact absurd hmem (List.not_mem_nil _)
    | cons x xs => rfl
  · rintro ⟨ha, hd⟩
    exact h4 (by rw [ha, hd]; rfl)

/-- C8: any configuration with an unknown column, more than one sort
key, or both sort directions makes validation fail with an error, and
the whole run returns that error for every filesystem state, i.e.
before any manifest scanning or blob enumeration can influence it. -/
theorem config_errors_fail_before_scanning (a : Args)
    (hbad : (∃ c ∈ parseColumns a, c ∉ allCols) ∨ 1 < countSortFlags a ∨
      (a.sort_asc = true ∧ a.sort_desc = true)) :
    ∃ e, validate a = Except.error e ∧ ∀ w : World, runMain a w = Except.error e := by
  cases hv : validate a with
  | error e =>
    refine ⟨e, rfl, fun w => ?_⟩
    simp [runMain, hv]
  | ok cols =>
    exfalso
    obtain ⟨hcols, hsort, hdirs⟩ := validate_ok_necessary a cols hv
    rcases hbad with ⟨c, hc, hnc⟩ | hb | hb
    · exact hnc (hcols c hc)
    · exact absurd hb (by omega)
    · exact hdirs hb

/-- Witness for C8: requesting columns `blob,bogus` fails for every world. -/
theorem config_errors_fail_before_scanning_witness :
    ∃ e, validate argsBad = Except.error e ∧
      ∀ w : World, runMain argsBad w = Except.error e :=
  config_errors_fail_before_scanning argsBad
    (Or.inl ⟨str "bogus", by decide, by decide⟩)

/-- C9: in the deletion flow without force, deletion proceeds exactly
when the confirmation input equals "yes" case-insensitively after
trimming; any other input leaves the files untouched and prints
"Aborted.". -/
theorem delete_confirmation_gate (inp : Str) (orphans : List Str)
    (files : List (Str × Nat)) (hne : orphans ≠ []) :
    (pyLower (pyStrip inp) = str "yes" →
      delete_orphans_flow false inp orphans files
        = (files.filter (fun p => !(orphans.any (fun f => decide (p.1 = f)))),
           ((str "Orphan blobs to delete:") ::
             orphans.map (fun f => str "  blobs/" ++ f)) ++
           orphans.map (fun f => if files.any (fun p => decide (p.1 = f))
             then str "Deleted: blobs/" ++ f else str "Failed: blobs/" ++ f) ++
           [str "Done."])) ∧
    (pyLower (pyStrip inp) ≠ str "yes" →
      (delete_orphans_flow false inp orphans files).1 = files ∧
      str "Aborted." ∈ (delete_orphans_flow false inp orphans files).2) := by
  have hemp : orphans.isEmpty = false := by
    cases orphans with
    | nil => exact absurd rfl hne
    | cons x xs => rfl
  constructor
  · intro hyes
    simp [delete_orphans_flow, hemp, hyes]
  · intro hno
    have hdec : decide (pyLower (pyStrip inp) = str "yes") = false := decide_eq_false hno
    constructor <;> simp [delete_orphans_flow, hemp, hdec]

/-- Witness for C9: the input "  No " aborts and removes nothing. -/
theorem delete_confirmation_gate_witness :
    (delete_orphans_flow false (str "  No ") [str "sha256-x"]
      [(str "sha256-x", 3)]).1 = [(str "sha256-x", 3)] ∧
    str "Aborted." ∈ (delete_orphans_flow false (str "  No ") [str "sha256-x"]
      [(str "sha256-x", 3)]).2 :=
  (delete_confirmation_gate (str "  No ") [str "sha256-x"] [(str "sha256-x", 3)]
    (by decide)).2 (by decide)

theorem startsWith_append (p s : Str) : startsWith p (p ++ s) = true := by
  induction p with
  | nil => rfl
  | cons c cs ih => simp [startsWith, ih]

theorem extract_closed_stem (name : Str) :
    extract_blob_hash_relaxed name =
      (if (relaxedStem name).length < 40 ∨ 128 < (relaxedStem name).length then none
       else if ¬ ((relaxedStem name).all isHexSrc = true) then none
       else some (relaxedStem name)) := rfl

theorem extract_some_length {name n : Str}
    (h : extract_blob_hash_relaxed name = some n) : 40 ≤ n.length := by
  rw [extract_closed_stem] at h
  split_ifs at h with hc1 hc2
  all_goals try exact Option.noConfusion h
  injection h with h'
  subst h'
  omega

theorem fileHash_some_ne_nil {name h : Str} (hf : fileHash name = some h) : h ≠ [] := by
  unfold fileHash at hf
  split_ifs at hf with hc
  · injection hf with hf'
    subst hf'
    intro hnil
    have hzero : name.length - (str "sha256-").length = 0 := by
      rw [← List.length_drop, hnil]
      rfl
    have hlt := hc.2
    have h7 : (str "sha256-").length = 7 := rfl
    rw [h7] at hzero hlt
    omega
  · have hlen := extract_some_length hf
    intro hnil
    rw [hnil] at hlen
    simp at hlen

theorem statOf_eq_none {files : List (Str × Nat)} {name : Str}
    (h : name ∉ files.map Prod.fst) : statOf files name = none := by
  unfold statOf
  rw [List.find?_eq_none.mpr]
  · rfl
  · intro p hp hdec
    exact h (List.mem_map.mpr ⟨p, hp, of_decide_eq_true hdec⟩)

theorem mem_list_all_blobs {names : List Str} {h : Str} :
    h ∈ list_all_blobs names ↔ ∃ name ∈ names, fileHash name = some h := by
  unfold list_all_blobs
  rw [List.mem_insertionSort, List.mem_dedup, List.mem_filterMap]

/-- C10: for a blob file matched only by the relaxed fallback rule, the
size query and the deletion target use the reconstructed
`sha256-<hash>` path, not the enumerated filename: the hash is
enumerated, the row's size is 0 because the reconstructed path does not
exist, the reconstructed path (not the file's name) is the orphan
deletion target, and the original file survives every deletion
outcome. -/
theorem reconstructed_path_for_relaxed_files (files : List (Str × Nat)) (m : Map)
    (f : Str) (sz : Nat) (hsh : Str)
    (hmem : (f, sz) ∈ files)
    (hnp : ¬ (startsWith (str "sha256-") f = true ∧ 7 < f.length))
    (hrel : extract_blob_hash_relaxed f = some hsh)
    (habs : (str "sha256-" ++ hsh) ∉ files.map Prod.fst) :
    hsh ∈ list_all_blobs (files.map Prod.fst) ∧
    (rowFor (statOf files) m hsh).size_bytes = 0 ∧
    (mapGet m hsh = [] →
      (str "sha256-" ++ hsh) ∈ orphanFilesOf m (list_all_blobs (files.map Prod.fst))) ∧
    (∀ force inp, (f, sz) ∈ (delete_orphans_flow force inp
      (orphanFilesOf m (list_all_blobs (files.map Prod.fst))) files).1) := by
  have hfh : fileHash f = some hsh := by
    unfold fileHash
    rw [show List.length (str "sha256-") = 7 from rfl, if_neg hnp]
    exact hrel
  have hmem1 : hsh ∈ list_all_blobs (files.map Prod.fst) :=
    mem_list_all_blobs.mpr ⟨f, List.mem_map.mpr ⟨(f, sz), hmem, rfl⟩, hfh⟩
  refine ⟨hmem1, ?_, ?_, ?_⟩
  · show size_bytes (statOf files) (str "sha256-" ++ hsh) = 0
    unfold size_bytes
    rw [statOf_eq_none habs]
    rfl
  · intro hempty
    unfold orphanFilesOf
    apply List.mem_filterMap.mpr
    refine ⟨hsh, hmem1, ?_⟩
    rw [if_pos]
    rw [hempty]
    rfl
  · intro force inp
    have hftarget : ∀ t ∈ orphanFilesOf m (list_all_blobs (files.map Prod.fst)), f ≠ t := by
      intro t ht
      obtain ⟨h2, hmem2, heq⟩ := List.mem_filterMap.mp ht
      split_ifs at heq with hcond
      all_goals try exact Option.noConfusion heq
      injection heq with heq'
      subst heq'
      intro hft
      apply hnp
      constructor
      · rw [hft]; exact startsWith_append _ _
      · rw [hft, List.length_append]
        have hne2 : h2 ≠ [] := by
          obtain ⟨nm, hnm, hfh2⟩ := mem_list_all_blobs.mp hmem2
          exact fileHash_some_ne_nil hfh2
        have hpos : 0 < h2.length := List.length_pos.mpr hne2
        have h7 : (str "sha256-").length = 7 := rfl
        omega
    simp only [delete_orphans_flow]
    split_ifs with hc1 hc2
    · exact hmem
    · exact hmem
    · apply List.mem_filter.mpr
      refine ⟨hmem, ?_⟩
      have hany : (orphanFilesOf m (list_all_blobs (files.map Prod.fst))).any
          (fun t => decide ((f, sz).1 = t)) = false := by
        rw [List.any_eq_false]
        intro t ht hd
        exact hftarget t ht (of_decide_eq_true hd)
      rw [hany]
      rfl

/-- Witness for C10 at a concrete 40-hex-character `.bin` file. -/
theorem reconstructed_path_for_relaxed_files_witness :
    relaxedHash ∈ list_all_blobs ([((relaxedName : Str), (7 : Nat))].map Prod.fst) ∧
    (rowFor (statOf [(relaxedName, 7)]) [] relaxedHash).size_bytes = 0 ∧
    (str "sha256-" ++ relaxedHash)
      ∈ orphanFilesOf [] (list_all_blobs ([((relaxedName : Str), (7 : Nat))].map Prod.fst)) ∧
    (relaxedName, 7) ∈ (delete_orphans_flow true (str "")
      (orphanFilesOf [] (list_all_blobs ([((relaxedName : Str), (7 : Nat))].map Prod.fst)))
      [(relaxedName, 7)]).1 := by
  have h := reconstructed_path_for_relaxed_files [(relaxedName, 7)] [] relaxedName 7
    relaxedHash (by decide) (by decide) (by decide) (by decide)
  exact ⟨h.1, h.2.1, h.2.2.1 (by decide), h.2.2.2 true (str "")⟩
